import Mathlib

set_option maxRecDepth 8000

/- Verification development for the tfc (text file converter) repository.

The repository's source consists of the file-buffer templates BinaryFile.h and
TextFile.h, the fixture generator gen.cpp and the integration-test harness
test.cpp.  The buffer templates are embedded below directly from their source.
The tfc classifier/converter engine itself is not part of the source listing;
where a definition stands in for it, its doc comment starts with
"Modelled from the spec:" and the definition is validated against the literal
byte fixtures written by gen.cpp, which are part of the source. -/

/-- A byte belongs to a line terminator. -/
def isEolChar (c : Char) : Bool := c == '\r' || c == '\n'

/-- A byte belongs to a leading indentation run. -/
def isIndentChar (c : Char) : Bool := c == ' ' || c == '\t'

/-- A line of a file: its content bytes (terminator excluded) and the raw
terminator bytes that followed the content. -/
structure TfcLine where
  content : List Char
  term : List Char
  deriving DecidableEq

/-- Leading-whitespace classification of a line (spec section 3). -/
inductive LeadKind where
  | spaceOnly
  | tabOnly
  | neither
  | both
  deriving DecidableEq

/-- Terminator classification of a line (spec section 3). -/
inductive TermKind where
  | dos
  | unix
  | malformed
  deriving DecidableEq

/-- Modelled from the spec: the line classifier of the absent tfc engine,
leading-whitespace axis.  The leading run is the maximal run of space/tab
bytes; SpaceOnly if nonempty and all spaces, TabOnly if nonempty and all tabs,
Both if it mixes the two, Neither if it is empty. -/
def classifyLead (content : List Char) : LeadKind :=
  let run := content.takeWhile isIndentChar
  if run = [] then LeadKind.neither
  else if run.contains ' ' && run.contains '\t' then LeadKind.both
  else if run.contains '\t' then LeadKind.tabOnly
  else LeadKind.spaceOnly

/-- Modelled from the spec: the line classifier of the absent tfc engine,
terminator axis.  Exactly CR LF is Dos, exactly LF is Unix, everything else
(LF CR, lone CR, empty, doubled) is Malformed. -/
def classifyTerm (term : List Char) : TermKind :=
  if term = ['\r', '\n'] then TermKind.dos
  else if term = ['\n'] then TermKind.unix
  else TermKind.malformed

/-- Modelled from the spec: the terminator tokenizer of the absent tfc engine.
At a position where a terminator starts, it consumes one terminator: the pairs
CR LF and LF CR as two bytes, otherwise a single CR or LF.  This reproduces
the fixture line counts of gen.cpp (test1 to test4 all have 9 lines). -/
def takeTerm (cs : List Char) : List Char × List Char :=
  match cs with
  | c1 :: c2 :: rest =>
      if c1 = '\r' ∧ c2 = '\n' then (['\r', '\n'], rest)
      else if c1 = '\n' ∧ c2 = '\r' then (['\n', '\r'], rest)
      else if c1 = '\r' ∨ c1 = '\n' then ([c1], c2 :: rest)
      else ([], cs)
  | [c1] =>
      if c1 = '\r' ∨ c1 = '\n' then ([c1], []) else ([], cs)
  | [] => ([], [])

/-- Modelled from the spec: one full pass splitting a file's bytes into lines
with their raw terminators.  Fuel-indexed; each step consumes at least one
byte, so fuel equal to the byte count suffices. -/
def splitLinesAux : Nat → List Char → List TfcLine
  | 0, _ => []
  | _ + 1, [] => []
  | fuel + 1, c :: cs =>
      let content := (c :: cs).takeWhile (fun x => !isEolChar x)
      let tr := takeTerm ((c :: cs).dropWhile (fun x => !isEolChar x))
      ⟨content, tr.1⟩ :: splitLinesAux fuel tr.2

/-- Modelled from the spec: split a file's bytes into classified lines. -/
def splitLines (bs : List Char) : List TfcLine := splitLinesAux bs.length bs

/-- Reassemble a line sequence into file bytes. -/
def unsplitLines : List TfcLine → List Char
  | [] => []
  | l :: ls => l.content ++ l.term ++ unsplitLines ls

/-- Count of lines with the given leading-whitespace kind. -/
def countLead (k : LeadKind) (ls : List TfcLine) : Nat :=
  ls.countP (fun l => decide (classifyLead l.content = k))

/-- Count of lines with the given terminator kind. -/
def countTerm (k : TermKind) (ls : List TfcLine) : Nat :=
  ls.countP (fun l => decide (classifyTerm l.term = k))

/-- Fixture bytes of testdata/input/test1.txt (gen.cpp, summaryTests):
mixed leading whitespace, all CR LF terminators. -/
def gtest1 : List Char :=
  ("\t  Sub 1\r\n \t  CRLF.m\r\n \t\r\n\t \r\n\tH\ti\r\n H\ti\r\nH\ti\r\nH i\r\n\r\n").data

/-- Fixture bytes of testdata/input/test2.txt (gen.cpp, summaryTests):
mixed leading whitespace, all LF terminators. -/
def gtest2 : List Char :=
  ("\t  Sub 1\n \t  LF.m\n \t\n\t \n\tH\ti\n H\ti\nH\ti\nH i\n\n").data

/-- Fixture bytes of testdata/input/test4.txt (gen.cpp, summaryTests):
mixed leading whitespace, all LF CR (malformed) terminators. -/
def gtest4 : List Char :=
  ("\t  Sub 1\n\r \t  LFCR.m\n\r \t\n\r\t \n\r\tH\ti\n\r H\ti\n\rH\ti\n\rH i\n\r\n\r").data

/-- Every line has exactly one leading-whitespace kind, so the four counts
partition the lines. -/
theorem length_eq_sum_countLead (ls : List TfcLine) :
    ls.length = countLead LeadKind.spaceOnly ls + countLead LeadKind.tabOnly ls
      + countLead LeadKind.neither ls + countLead LeadKind.both ls := by
  induction ls with
  | nil => simp [countLead]
  | cons x xs ih =>
      simp only [countLead, List.countP_cons, List.length_cons] at ih ⊢
      cases h : classifyLead x.content <;> simp [h] <;> omega

/-- Every line has exactly one terminator kind, so the three counts partition
the lines. -/
theorem length_eq_sum_countTerm (ls : List TfcLine) :
    ls.length = countTerm TermKind.dos ls + countTerm TermKind.unix ls
      + countTerm TermKind.malformed ls := by
  induction ls with
  | nil => simp [countTerm]
  | cons x xs ih =>
      simp only [countTerm, List.countP_cons, List.length_cons] at ih ⊢
      cases h : classifyTerm x.term <;> simp [h] <;> omega

/-- C1: for every input file, the total line count equals the sum of the four
leading-whitespace-kind counts and also equals the sum of the three
terminator-kind counts; moreover the model reproduces the literal counts of
the gen.cpp summary fixtures for test1, test2 and test4. -/
theorem claim_C1_summary_invariant :
    (∀ bs : List Char,
        (splitLines bs).length
          = countLead LeadKind.spaceOnly (splitLines bs)
            + countLead LeadKind.tabOnly (splitLines bs)
            + countLead LeadKind.neither (splitLines bs)
            + countLead LeadKind.both (splitLines bs)
      ∧ (splitLines bs).length
          = countTerm TermKind.dos (splitLines bs)
            + countTerm TermKind.unix (splitLines bs)
            + countTerm TermKind.malformed (splitLines bs))
  ∧ (splitLines gtest1).length = 9
  ∧ countLead LeadKind.spaceOnly (splitLines gtest1) = 1
  ∧ countLead LeadKind.tabOnly (splitLines gtest1) = 1
  ∧ countLead LeadKind.neither (splitLines gtest1) = 3
  ∧ countLead LeadKind.both (splitLines gtest1) = 4
  ∧ countTerm TermKind.dos (splitLines gtest1) = 9
  ∧ countTerm TermKind.unix (splitLines gtest2) = 9
  ∧ countTerm TermKind.malformed (splitLines gtest4) = 9 := by
  refine ⟨fun bs => ⟨length_eq_sum_countLead _, length_eq_sum_countTerm _⟩, ?_⟩
  exact ⟨by decide, by decide, by decide, by decide, by decide, by decide,
    by decide, by decide⟩

/-- Modelled from the spec: indentation target of the absent tfc engine. -/
inductive IndentMode where
  | toSpaces
  | toTabs
  deriving DecidableEq

/-- Modelled from the spec: line-ending target of the absent tfc engine. -/
inductive EolMode where
  | toDos
  | toUnix
  deriving DecidableEq

/-- Modelled from the spec: per-invocation conversion settings (spec section
3, ConversionConfig): optional indentation target, tab width, optional
line-ending target. -/
structure TfcConfig where
  indent : Option IndentMode
  width : Nat
  eol : Option EolMode

/-- Modelled from the spec: tab-stop column reached after scanning a leading
run, starting at column col.  A space advances the column by one; a tab
advances it to the next multiple of the tab width w.  The tab-stop rule (not
per-tab replacement) is forced by the fixture tables of gen.cpp
(tabToSpaceTests, tabTests). -/
def leadColAux (w : Nat) : Nat → List Char → Nat
  | col, [] => col
  | col, c :: cs =>
      if c = ' ' then leadColAux w (col + 1) cs
      else if c = '\t' then leadColAux w (col + (w - col % w)) cs
      else col

/-- Modelled from the spec: the to-space conversion scanner.  It walks the
leading run tracking the tab-stop column and, at the first byte that is not a
space or tab (or at end of line), emits that many spaces followed by the
untouched remainder. -/
def toSpaceAux (w : Nat) : Nat → List Char → List Char
  | col, [] => List.replicate col ' '
  | col, c :: cs =>
      if c = ' ' then toSpaceAux w (col + 1) cs
      else if c = '\t' then toSpaceAux w (col + (w - col % w)) cs
      else List.replicate col ' ' ++ c :: cs

/-- Modelled from the spec: convert a line's leading whitespace to spaces. -/
def toSpaceLine (w : Nat) (line : List Char) : List Char := toSpaceAux w 0 line

/-- Modelled from the spec: convert a line's leading whitespace to tabs.  The
tab-stop column of the whole leading run is computed and re-emitted as
col / w tabs followed by col % w spaces; the remainder is untouched.  This
reproduces the gen.cpp fixtures (spaceToTabTests, tabTests), including the
absorption of spaces that precede a tab. -/
def toTabLine (w : Nat) (line : List Char) : List Char :=
  List.replicate (leadColAux w 0 (line.takeWhile isIndentChar) / w) '\t'
    ++ List.replicate (leadColAux w 0 (line.takeWhile isIndentChar) % w) ' '
    ++ line.dropWhile isIndentChar

/-- The conversion exactly as the spec's section 4.4 words describe it: each
leading tab becomes w literal spaces and each leading space one space.  Kept
for comparison against the fixture tables, which contradict it. -/
def literalToSpaceLine (w : Nat) (line : List Char) : List Char :=
  (line.takeWhile isIndentChar).flatMap
      (fun c => if c = '\t' then List.replicate w ' ' else [' '])
    ++ line.dropWhile isIndentChar

/-- Modelled from the spec: apply the optional indentation conversion. -/
def applyIndent : Option IndentMode → Nat → List Char → List Char
  | none, _, content => content
  | some IndentMode.toSpaces, w, content => toSpaceLine w content
  | some IndentMode.toTabs, w, content => toTabLine w content

/-- Modelled from the spec: apply the optional line-ending conversion; to-dos
yields CR LF and to-unix yields LF regardless of the original terminator, and
no target passes the original bytes through. -/
def applyEol : Option EolMode → List Char → List Char
  | none, t => t
  | some EolMode.toDos, _ => ['\r', '\n']
  | some EolMode.toUnix, _ => ['\n']

/-- Modelled from the spec: convert one line under a configuration. -/
def convertLine (cfg : TfcConfig) (l : TfcLine) : TfcLine :=
  ⟨applyIndent cfg.indent cfg.width l.content, applyEol cfg.eol l.term⟩

/-- Modelled from the spec: one whole-file conversion pass. -/
def tfcProcess (cfg : TfcConfig) (bs : List Char) : List Char :=
  unsplitLines ((splitLines bs).map (convertLine cfg))

/-- Fixture lines of testdata/input/testTab.txt (gen.cpp, tabToSpaceTests):
line k has k leading spaces followed by one tab. -/
def testTabLines : List (List Char) :=
  ["\t0", " \t1", "  \t2", "   \t3", "    \t4", "     \t5", "      \t6",
   "       \t7", "        \t8", "         \t9"].map String.data

/-- Expected lines of testdata/expected/testTab2.txt (gen.cpp). -/
def testTab2Lines : List (List Char) :=
  ["  0", "  1", "    2", "    3", "      4", "      5", "        6",
   "        7", "          8", "          9"].map String.data

/-- Expected lines of testdata/expected/testTab4.txt (gen.cpp). -/
def testTab4Lines : List (List Char) :=
  ["    0", "    1", "    2", "    3", "        4", "        5", "        6",
   "        7", "            8", "            9"].map String.data

/-- Expected lines of testdata/expected/testTab8.txt (gen.cpp). -/
def testTab8Lines : List (List Char) :=
  ["        0", "        1", "        2", "        3", "        4",
   "        5", "        6", "        7", "                8",
   "                9"].map String.data

/-- Fixture lines of testdata/input/testSpace.txt (gen.cpp, spaceToTabTests):
line k has k leading spaces. -/
def testSpaceLines : List (List Char) :=
  ["0", " 1", "  2", "   3", "    4", "     5", "      6", "       7",
   "        8", "         9"].map String.data

/-- Expected lines of testdata/expected/testSpace2.txt (gen.cpp). -/
def testSpace2Lines : List (List Char) :=
  ["0", " 1", "\t2", "\t 3", "\t\t4", "\t\t 5", "\t\t\t6", "\t\t\t 7",
   "\t\t\t\t8", "\t\t\t\t 9"].map String.data

/-- Expected lines of testdata/expected/testSpace4.txt (gen.cpp). -/
def testSpace4Lines : List (List Char) :=
  ["0", " 1", "  2", "   3", "\t4", "\t 5", "\t  6", "\t   7", "\t\t8",
   "\t\t 9"].map String.data

/-- Expected lines of testdata/expected/testSpace8.txt (gen.cpp). -/
def testSpace8Lines : List (List Char) :=
  ["0", " 1", "  2", "   3", "    4", "     5", "      6", "       7",
   "\t8", "\t 9"].map String.data

/-- Expected bytes of testdata/expected/test1s.txt (gen.cpp, spaceTests):
test1 with its leading whitespace converted to spaces at the default width. -/
def spaceT1 : List Char :=
  ("      Sub 1\r\n      CRLF.m\r\n    \r\n     \r\n    H\ti\r\n H\ti\r\nH\ti\r\nH i\r\n\r\n").data

/-- Expected bytes of testdata/expected/test1t.txt (gen.cpp, tabTests):
test1 with its leading whitespace converted to tabs at the default width. -/
def tabT1 : List Char :=
  ("\t  Sub 1\r\n\t  CRLF.m\r\n\t\r\n\t \r\n\tH\ti\r\n H\ti\r\nH\ti\r\nH i\r\n\r\n").data

/-- The to-space scanner emits the tab-stop column of the leading run as
spaces and leaves the remainder of the line untouched. -/
theorem toSpaceAux_eq (w : Nat) (l : List Char) : ∀ col : Nat,
    toSpaceAux w col l
      = List.replicate (leadColAux w col (l.takeWhile isIndentChar)) ' '
          ++ l.dropWhile isIndentChar := by
  induction l with
  | nil => intro col; simp [toSpaceAux, leadColAux]
  | cons c cs ih =>
      intro col
      by_cases hsp : c = ' '
      · subst hsp
        simp [toSpaceAux, List.takeWhile_cons, List.dropWhile_cons,
          isIndentChar, leadColAux, ih]
      · by_cases htb : c = '\t'
        · subst htb
          simp [toSpaceAux, List.takeWhile_cons, List.dropWhile_cons,
            isIndentChar, leadColAux, ih]
        · have hind : isIndentChar c = false := by
            simp [isIndentChar, hsp, htb]
          simp [toSpaceAux, List.takeWhile_cons, List.dropWhile_cons, hind,
            hsp, htb, leadColAux]

/-- A run of k spaces advances the tab-stop column by exactly k. -/
theorem leadColAux_replicate_space (w : Nat) : ∀ (k col : Nat),
    leadColAux w col (List.replicate k ' ') = col + k := by
  intro k
  induction k with
  | zero => intro col; simp [leadColAux]
  | succ n ih =>
      intro col
      simp [List.replicate_succ, leadColAux, ih]
      omega

/-- The leading-run split of k spaces followed by a non-indent remainder. -/
theorem takeWhile_replicate_space (rest : List Char)
    (h : rest.takeWhile isIndentChar = []) : ∀ k : Nat,
    (List.replicate k ' ' ++ rest).takeWhile isIndentChar
        = List.replicate k ' '
      ∧ (List.replicate k ' ' ++ rest).dropWhile isIndentChar = rest := by
  intro k
  induction k with
  | zero =>
      have hd : rest.dropWhile isIndentChar = rest := by
        have := List.takeWhile_append_dropWhile (p := isIndentChar) (l := rest)
        rw [h] at this
        simpa using this
      simpa [h] using hd
  | succ n ih =>
      simp [List.replicate_succ, List.takeWhile_cons, List.dropWhile_cons,
        isIndentChar, ih.1, ih.2]

/-- C2 (amended): the to-space conversion replaces the leading run by one
space per tab-stop column it spans — a space advances the column by one and a
tab advances it to the next multiple of the width — and leaves the rest of
the line untouched; this reproduces every line of the gen.cpp to-space
fixture tables at widths 2, 4 and 8 and the whole-file test1s fixture at the
default width 4. -/
theorem claim_C2_tostop_conversion :
    (∀ (w : Nat) (line : List Char),
        toSpaceLine w line
          = List.replicate (leadColAux w 0 (line.takeWhile isIndentChar)) ' '
              ++ line.dropWhile isIndentChar)
  ∧ List.map (toSpaceLine 2) testTabLines = testTab2Lines
  ∧ List.map (toSpaceLine 4) testTabLines = testTab4Lines
  ∧ List.map (toSpaceLine 8) testTabLines = testTab8Lines
  ∧ tfcProcess ⟨some IndentMode.toSpaces, 4, none⟩ gtest1 = spaceT1 := by
  refine ⟨fun w line => toSpaceAux_eq w line 0, ?_, ?_, ?_, ?_⟩
  · decide
  · decide
  · decide
  · decide

/-- C2 (counterexample): on the gen.cpp fixture line " \t1" (one leading
space, one leading tab) at width 2 the converter that reproduces the fixture
table yields a leading run of 2 spaces, whereas the claim's per-character
rule (one space per space, W spaces per tab) predicts 1 + 2 * 1 = 3. -/
theorem claim_C2_counterexample :
    List.map (toSpaceLine 2) testTabLines = testTab2Lines
  ∧ testTabLines.get? 1 = some (' ' :: '\t' :: '1' :: [])
  ∧ toSpaceLine 2 (' ' :: '\t' :: '1' :: []) = (' ' :: ' ' :: '1' :: [])
  ∧ literalToSpaceLine 2 (' ' :: '\t' :: '1' :: [])
      = (' ' :: ' ' :: ' ' :: '1' :: [])
  ∧ toSpaceLine 2 (' ' :: '\t' :: '1' :: [])
      ≠ literalToSpaceLine 2 (' ' :: '\t' :: '1' :: []) := by
  decide

/-- C3 (amended): the to-tab conversion computes the tab-stop column of the
whole leading run and replaces it by col / w tabs followed by col % w spaces,
leaving the rest of the line untouched; on a leading run of spaces only this
folds each full group of w spaces into one tab and keeps the leftover spaces,
and it reproduces every line of the gen.cpp space-to-tab fixture tables at
widths 2, 4 and 8 and the whole-file test1t fixture at the default width 4. -/
theorem claim_C3_totab_conversion :
    (∀ (w k : Nat) (rest : List Char), rest.takeWhile isIndentChar = [] →
        toTabLine w (List.replicate k ' ' ++ rest)
          = List.replicate (k / w) '\t' ++ List.replicate (k % w) ' ' ++ rest)
  ∧ List.map (toTabLine 2) testSpaceLines = testSpace2Lines
  ∧ List.map (toTabLine 4) testSpaceLines = testSpace4Lines
  ∧ List.map (toTabLine 8) testSpaceLines = testSpace8Lines
  ∧ tfcProcess ⟨some IndentMode.toTabs, 4, none⟩ gtest1 = tabT1 := by
  refine ⟨?_, ?_, ?_, ?_, ?_⟩
  · intro w k rest h
    have hsplit := takeWhile_replicate_space rest h k
    simp [toTabLine, hsplit.1, hsplit.2, leadColAux_replicate_space]
  · decide
  · decide
  · decide
  · decide

/-- C3 witness: the space-folding description holds at the concrete instance
of five leading spaces before "x" at width 4. -/
theorem claim_C3_totab_conversion_witness :
    (('x' :: []) : List Char).takeWhile isIndentChar = []
  ∧ toTabLine 4 (List.replicate 5 ' ' ++ ('x' :: []))
      = List.replicate (5 / 4) '\t' ++ List.replicate (5 % 4) ' '
          ++ ('x' :: []) :=
  ⟨by decide, claim_C3_totab_conversion.1 4 5 ('x' :: []) (by decide)⟩

/-- C3 (counterexample): gen.cpp's tabTests expects the test1 line whose
leading run is a space followed by a tab to come out as a single tab, so the
leading space is absorbed rather than emitted unchanged as the claim states;
the converter that reproduces the whole test1t fixture maps " \t" to "\t". -/
theorem claim_C3_counterexample :
    tfcProcess ⟨some IndentMode.toTabs, 4, none⟩ gtest1 = tabT1
  ∧ (splitLines gtest1).get? 2
      = some ⟨' ' :: '\t' :: [], '\r' :: '\n' :: []⟩
  ∧ toTabLine 4 (' ' :: '\t' :: []) = ('\t' :: [])
  ∧ ('\t' :: []) ≠ ((' ' :: '\t' :: []) : List Char) := by
  decide

/-- Expected bytes of testdata/expected/test2d.txt (gen.cpp, dosTests):
test2 with every terminator rewritten to CR LF. -/
def dosT2 : List Char :=
  ("\t  Sub 1\r\n \t  LF.m\r\n \t\r\n\t \r\n\tH\ti\r\n H\ti\r\nH\ti\r\nH i\r\n\r\n").data

/-- Expected bytes of testdata/expected/test4d.txt (gen.cpp, dosTests):
test4 with every terminator rewritten to CR LF. -/
def dosT4 : List Char :=
  ("\t  Sub 1\r\n \t  LFCR.m\r\n \t\r\n\t \r\n\tH\ti\r\n H\ti\r\nH\ti\r\nH i\r\n\r\n").data

/-- Expected bytes of testdata/expected/test1u.txt (gen.cpp, unixTests):
test1 with every terminator rewritten to LF. -/
def unixT1 : List Char :=
  ("\t  Sub 1\n \t  CRLF.m\n \t\n\t \n\tH\ti\n H\ti\nH\ti\nH i\n\n").data

/-- Expected bytes of testdata/expected/test4u.txt (gen.cpp, unixTests):
test4 with every terminator rewritten to LF. -/
def unixT4 : List Char :=
  ("\t  Sub 1\n \t  LFCR.m\n \t\n\t \n\tH\ti\n H\ti\nH\ti\nH i\n\n").data

/-- C4: the line-ending converter rewrites every line's terminator to exactly
CR LF under to-dos and to exactly LF under to-unix, whatever the original
terminator was, and never touches the content bytes; it reproduces the
gen.cpp whole-file fixtures for Unix and malformed inputs under both
targets. -/
theorem claim_C4_eol_conversion :
    (∀ l : TfcLine,
        (convertLine ⟨none, 4, some EolMode.toDos⟩ l).term = ('\r' :: '\n' :: [])
      ∧ (convertLine ⟨none, 4, some EolMode.toDos⟩ l).content = l.content
      ∧ (convertLine ⟨none, 4, some EolMode.toUnix⟩ l).term = ('\n' :: [])
      ∧ (convertLine ⟨none, 4, some EolMode.toUnix⟩ l).content = l.content)
  ∧ tfcProcess ⟨none, 4, some EolMode.toDos⟩ gtest2 = dosT2
  ∧ tfcProcess ⟨none, 4, some EolMode.toDos⟩ gtest4 = dosT4
  ∧ tfcProcess ⟨none, 4, some EolMode.toUnix⟩ gtest1 = unixT1
  ∧ tfcProcess ⟨none, 4, some EolMode.toUnix⟩ gtest4 = unixT4 := by
  refine ⟨fun l => ⟨rfl, rfl, rfl, rfl⟩, ?_, ?_, ?_, ?_⟩
  · decide
  · decide
  · decide
  · decide

/-- Modelled from the spec: the eight summary counts in their fixed order —
total, space-only, tab-only, neither, both, dos, unix, malformed. -/
def summaryCounts (bs : List Char) : List Nat :=
  [(splitLines bs).length,
   countLead LeadKind.spaceOnly (splitLines bs),
   countLead LeadKind.tabOnly (splitLines bs),
   countLead LeadKind.neither (splitLines bs),
   countLead LeadKind.both (splitLines bs),
   countTerm TermKind.dos (splitLines bs),
   countTerm TermKind.unix (splitLines bs),
   countTerm TermKind.malformed (splitLines bs)]

/-- Modelled from the spec: the second summary line, the eight counts
space-separated. -/
def renderCounts (bs : List Char) : String :=
  String.intercalate " " ((summaryCounts bs).map Nat.repr)

/-- Modelled from the spec: the two-line summary artifact — the source path
verbatim, then the counts line (gen.cpp writeSummaryFile writes exactly these
two lines as the expected artifact). -/
def summaryArtifact (path : String) (bs : List Char) : List String :=
  [path, renderCounts bs]

/-- C6: the summary artifact is exactly two lines, the source path verbatim
and eight space-separated integers in the fixed order; on the 9-line gen.cpp
fixture the counts line is "9 1 1 3 4 9 0 0" for the CR LF variant,
"9 1 1 3 4 0 9 0" for the LF variant and "9 1 1 3 4 0 0 9" for the LF CR
variant, matching the literal expected files of summaryTests. -/
theorem claim_C6_summary_artifact :
    (∀ (path : String) (bs : List Char),
        (summaryArtifact path bs).length = 2
      ∧ (summaryArtifact path bs).get? 0 = some path
      ∧ (summaryArtifact path bs).get? 1 = some (renderCounts bs)
      ∧ (summaryCounts bs).length = 8)
  ∧ renderCounts gtest1 = "9 1 1 3 4 9 0 0"
  ∧ renderCounts gtest2 = "9 1 1 3 4 0 9 0"
  ∧ renderCounts gtest4 = "9 1 1 3 4 0 0 9" := by
  refine ⟨fun path bs => ⟨rfl, rfl, rfl, rfl⟩, ?_, ?_, ?_⟩
  · decide
  · decide
  · decide

/-- The terminator tokenizer splits off a prefix: terminator plus remainder
reassemble to the input. -/
theorem takeTerm_append (cs : List Char) :
    (takeTerm cs).1 ++ (takeTerm cs).2 = cs := by
  rcases cs with _ | ⟨c1, _ | ⟨c2, rest⟩⟩
  · rfl
  · simp only [takeTerm]
    split_ifs with h
    · rcases h with h | h <;> subst h <;> rfl
    · rfl
  · simp only [takeTerm]
    split_ifs with h1 h2 h3
    · obtain ⟨a, b⟩ := h1; subst a; subst b; rfl
    · obtain ⟨a, b⟩ := h2; subst a; subst b; rfl
    · rfl
    · rfl

/-- On input starting with a terminator byte the tokenizer consumes at least
one byte. -/
theorem takeTerm_progress (c : Char) (cs : List Char) (h : isEolChar c = true) :
    (takeTerm (c :: cs)).2.length < (c :: cs).length := by
  have hc : c = '\r' ∨ c = '\n' := by
    simpa [isEolChar] using h
  rcases cs with _ | ⟨c2, rest⟩
  · simp [takeTerm, hc]
  · simp only [takeTerm]
    split_ifs with h1 h2 <;> simp only [List.length_cons] <;> omega

/-- One step of the line splitter strictly shrinks a nonempty byte list. -/
theorem split_step_progress : ∀ bs : List Char, bs ≠ [] →
    (takeTerm (bs.dropWhile (fun x => !isEolChar x))).2.length < bs.length := by
  intro bs
  induction bs with
  | nil => intro h; exact absurd rfl h
  | cons c cs ih =>
      intro _
      by_cases hc : isEolChar c
      · rw [List.dropWhile_cons]
        simp only [hc, Bool.not_true, Bool.false_eq_true, if_false]
        exact takeTerm_progress c cs hc
      · rw [List.dropWhile_cons]
        have hcb : isEolChar c = false := by
          simpa using hc
        simp only [hcb, Bool.not_false, if_true]
        rcases cs with _ | ⟨c2, rest⟩
        · simp [takeTerm]
        · have hlt := ih (by simp)
          simp only [List.length_cons] at hlt ⊢
          omega

/-- Reassembling the split lines gives back the original bytes, for any
sufficient fuel. -/
theorem unsplit_splitAux : ∀ (fuel : Nat) (bs : List Char),
    bs.length ≤ fuel → unsplitLines (splitLinesAux fuel bs) = bs := by
  intro fuel
  induction fuel with
  | zero =>
      intro bs h
      have hb : bs = [] := List.eq_nil_of_length_eq_zero (Nat.le_zero.mp h)
      subst hb; rfl
  | succ n ih =>
      intro bs h
      rcases bs with _ | ⟨c, cs⟩
      · rfl
      · have hprog := split_step_progress (c :: cs) (by simp)
        simp only [splitLinesAux, unsplitLines]
        rw [ih _ (by simp only [List.length_cons] at h hprog ⊢; omega)]
        rw [List.append_assoc, takeTerm_append]
        exact List.takeWhile_append_dropWhile _ _

/-- Reassembling the split lines of any file gives back its bytes. -/
theorem unsplit_splitLines (bs : List Char) :
    unsplitLines (splitLines bs) = bs :=
  unsplit_splitAux bs.length bs (Nat.le_refl _)

/-- With no indentation target and no line-ending target a line is passed
through unchanged. -/
theorem convertLine_none (w : Nat) (l : TfcLine) :
    convertLine ⟨none, w, none⟩ l = l := rfl

/-- Modelled from the spec: the filesystem effect of the summary-only run —
it writes the two-line artifact (path, counts) to the output path and writes
to no other path. -/
def summaryRun (fs : String → List Char) (inPath outPath : String) :
    String → List Char :=
  fun p =>
    if p = outPath then (inPath ++ "\n" ++ renderCounts (fs inPath) ++ "\n").data
    else fs p

/-- C8: under the summary-only invocation no conversion target is set, so the
whole-file pass reproduces the input bytes exactly (every terminator and every
content byte passed through), and the run writes only the output path, so the
summarized input file's bytes are unchanged afterwards. -/
theorem claim_C8_summary_preserves_input :
    (∀ bs : List Char, tfcProcess ⟨none, 4, none⟩ bs = bs)
  ∧ (∀ (fs : String → List Char) (inPath outPath : String),
        inPath ≠ outPath → summaryRun fs inPath outPath inPath = fs inPath) := by
  constructor
  · intro bs
    have hfun : convertLine ⟨none, 4, none⟩ = id :=
      funext (fun l => convertLine_none 4 l)
    rw [tfcProcess, hfun, List.map_id, unsplit_splitLines]
  · intro fs inPath outPath h
    simp [summaryRun, h]

/-- C8 witness: at a concrete filesystem with distinct input and output paths
the input file's bytes are unchanged by the summary run. -/
theorem claim_C8_summary_preserves_input_witness :
    ("in.txt" : String) ≠ "out.txt"
  ∧ summaryRun (fun _ => gtest1) "in.txt" "out.txt" "in.txt" = gtest1 :=
  ⟨by decide, claim_C8_summary_preserves_input.2 (fun _ => gtest1) "in.txt"
    "out.txt" (by decide)⟩

/-- Modelled from the spec: the per-invocation option record built by tfc's
absent argument parser (spec section 6 flags). -/
structure TfcOptions where
  input : Option String
  output : Option String
  replaceMode : Bool
  indent : Option IndentMode
  width : Nat
  eol : Option EolMode
  summaryOnly : Bool
  showHelp : Bool
  showVersion : Bool
  deriving DecidableEq

/-- The option record before any argument is seen. -/
def initialOptions : TfcOptions :=
  ⟨none, none, false, none, 4, none, false, false, false⟩

/-- Modelled from the spec: tfc's argument scanner over the flag surface of
spec section 6; none signals an unknown flag or a flag missing its value.
The replace flag takes the file to convert in place, as exercised by
"tfc -r path" in test.cpp. -/
def parseArgsAux : TfcOptions → List String → Option TfcOptions
  | o, [] => some o
  | o, a :: rest =>
    if a = "-i" ∨ a = "--input" then
      match rest with
      | v :: rs => parseArgsAux { o with input := some v } rs
      | [] => none
    else if a = "-o" ∨ a = "--output" then
      match rest with
      | v :: rs => parseArgsAux { o with output := some v } rs
      | [] => none
    else if a = "-r" ∨ a = "--replace" then
      match rest with
      | v :: rs => parseArgsAux { o with input := some v, replaceMode := true } rs
      | [] => none
    else if a = "-s" ∨ a = "--space" then
      parseArgsAux { o with indent := some IndentMode.toSpaces } rest
    else if a = "-t" ∨ a = "--tab" then
      parseArgsAux { o with indent := some IndentMode.toTabs } rest
    else if a = "-d" ∨ a = "--dos" then
      parseArgsAux { o with eol := some EolMode.toDos } rest
    else if a = "-u" ∨ a = "--unix" then
      parseArgsAux { o with eol := some EolMode.toUnix } rest
    else if a = "-x" then
      parseArgsAux { o with summaryOnly := true } rest
    else if a = "-2" then parseArgsAux { o with width := 2 } rest
    else if a = "-4" then parseArgsAux { o with width := 4 } rest
    else if a = "-8" then parseArgsAux { o with width := 8 } rest
    else if a = "-h" ∨ a = "--help" then
      parseArgsAux { o with showHelp := true } rest
    else if a = "-v" ∨ a = "--version" then
      parseArgsAux { o with showVersion := true } rest
    else none

/-- Modelled from the spec: parse a tfc command line. -/
def parseArgs (args : List String) : Option TfcOptions :=
  parseArgsAux initialOptions args

/-- Modelled from the spec: tfc's validation of a parsed invocation, returning
its exit code before any conversion work is done.  Non-zero on: replace mode
combined with an explicit output path; input path equal to output path;
nonexistent input file; replace mode without any conversion target
(test.cpp testOptions5).  Help and version requests short-circuit with 0. -/
def validateTfc (o : TfcOptions) (inputExists : Bool) : Nat :=
  if o.showHelp ∨ o.showVersion then 0
  else if o.replaceMode ∧ o.output ≠ none then 1
  else if o.input ≠ none ∧ o.input = o.output then 1
  else if o.input ≠ none ∧ inputExists = false then 1
  else if o.replaceMode ∧ o.indent = none ∧ o.eol = none then 1
  else 0

/-- Modelled from the spec: exit code of a tfc invocation — parse failures
exit non-zero, otherwise the validation result. -/
def tfcExitCode (args : List String) (inputExists : Bool) : Nat :=
  match parseArgs args with
  | none => 1
  | some o => validateTfc o inputExists

/-- C7: an invocation that requests replace mode together with an explicit
output path exits non-zero, and an invocation whose input path equals its
output path exits non-zero, whatever the rest of the options and whether the
input exists; concretely, the command lines of test.cpp testOptions6 and a
replace-plus-output variant of testOptions5 both exit non-zero. -/
theorem claim_C7_path_conflicts_rejected :
    (∀ (o : TfcOptions) (ex : Bool),
        o.showHelp = false → o.showVersion = false →
        (o.replaceMode = true ∧ o.output ≠ none)
          ∨ (o.input ≠ none ∧ o.input = o.output) →
        validateTfc o ex ≠ 0)
  ∧ tfcExitCode ["--space", "--input", "f.txt", "--output", "f.txt"] true ≠ 0
  ∧ tfcExitCode ["--replace", "f.txt", "-o", "g.txt"] true ≠ 0 := by
  refine ⟨?_, by decide, by decide⟩
  intro o ex hh hv hcase
  unfold validateTfc
  split_ifs with h1 h2 h3 h4 h5 <;> simp_all

/-- C7 witness: validation rejects the concrete option records arising from
replace-plus-output and from equal input and output paths. -/
theorem claim_C7_path_conflicts_rejected_witness :
    validateTfc ⟨some "f.txt", some "f.txt", false, some IndentMode.toSpaces,
        4, none, false, false, false⟩ true ≠ 0
  ∧ validateTfc ⟨some "f.txt", some "g.txt", true, none, 4, none, false,
        false, false⟩ true ≠ 0 :=
  ⟨claim_C7_path_conflicts_rejected.1 _ true rfl rfl
      (Or.inr ⟨by decide, by decide⟩),
    claim_C7_path_conflicts_rejected.1 _ true rfl rfl
      (Or.inl ⟨rfl, by decide⟩)⟩

/-- Byte predicate used by std::getline: keep reading while not LF. -/
def notNlChar (c : Char) : Bool := !(c == '\n')

/-- TextFile::read truncates an extracted line at its first occurrence of CR,
LF or NUL (find_first_of of the token string, then substr). -/
def truncTok (l : List Char) : List Char :=
  l.takeWhile (fun c => !(c == '\r' || c == '\n' || c == Char.ofNat 0))

/-- One std::getline call on the remaining bytes: the extracted line (LF
excluded) and, when the LF delimiter was found and consumed, the remaining
bytes; none when end-of-file was hit instead (eofbit set). -/
def getlineChunk (bs : List Char) : List Char × Option (List Char) :=
  match bs.dropWhile notNlChar with
  | [] => (bs.takeWhile notNlChar, none)
  | _ :: rs => (bs.takeWhile notNlChar, some rs)

/-- The getline loop of TextFile::read: while getline succeeds, truncate the
line at the first CR/LF/NUL and push it onto the buffer only when the stream
has not hit end-of-file and the truncated line is nonempty.  A getline that
hits end-of-file sets eofbit, so its line is dropped and the next iteration
fails, ending the loop. -/
def textReadLoop : Nat → List (List Char) → List Char → List (List Char)
  | 0, acc, _ => acc
  | _ + 1, acc, [] => acc
  | fuel + 1, acc, b :: bs =>
      match getlineChunk (b :: bs) with
      | (_, none) => acc
      | (line, some rs) =>
          if (truncTok line).length ≠ 0 then
            textReadLoop fuel (acc ++ [truncTok line]) rs
          else textReadLoop fuel acc rs

/-- The lines TextFile::read appends when reading the given file bytes into
an empty buffer. -/
def textLines (bs : List Char) : List (List Char) :=
  textReadLoop bs.length [] bs

/-- Declarative LF splitter: the segments of a byte list between LF bytes
(an LF at the end contributes a final empty segment). -/
def splitNl : List Char → List (List Char)
  | [] => [[]]
  | c :: cs =>
      if c = '\n' then [] :: splitNl cs
      else
        match splitNl cs with
        | s :: ss => (c :: s) :: ss
        | [] => [[c]]

/-- The LF splitter never returns an empty segment list. -/
theorem splitNl_ne_nil (l : List Char) : splitNl l ≠ [] := by
  rcases l with _ | ⟨c, cs⟩
  · simp [splitNl]
  · simp only [splitNl]
    split_ifs
    · simp
    · rcases h : splitNl cs with _ | ⟨s, ss⟩ <;> simp

/-- A byte list with no LF is a single segment. -/
theorem splitNl_no_newline : ∀ bs : List Char, bs.dropWhile notNlChar = [] →
    splitNl bs = [bs.takeWhile notNlChar] := by
  intro bs
  induction bs with
  | nil => intro _; rfl
  | cons c cs ih =>
      intro h
      rw [List.dropWhile_cons] at h
      by_cases hc : c = '\n'
      · subst hc
        simp [notNlChar] at h
      · have hnb : notNlChar c = true := by simp [notNlChar, hc]
        simp only [hnb, if_true] at h
        simp [splitNl, hc, ih h, List.takeWhile_cons, hnb]

/-- Splitting off everything up to and including the first LF peels one
segment off the LF splitter. -/
theorem splitNl_with_newline : ∀ (bs : List Char) (d : Char) (rs : List Char),
    bs.dropWhile notNlChar = d :: rs →
    splitNl bs = bs.takeWhile notNlChar :: splitNl rs := by
  intro bs
  induction bs with
  | nil => intro d rs h; simp at h
  | cons c cs ih =>
      intro d rs h
      rw [List.dropWhile_cons] at h
      by_cases hc : c = '\n'
      · subst hc
        have hnb : notNlChar '\n' = false := by simp [notNlChar]
        simp only [hnb, Bool.false_eq_true, if_false, List.cons.injEq] at h
        obtain ⟨hd, hrs⟩ := h
        subst hrs
        simp [splitNl, List.takeWhile_cons, hnb]
      · have hnb : notNlChar c = true := by simp [notNlChar, hc]
        simp only [hnb, if_true] at h
        simp [splitNl, hc, ih d rs h, List.takeWhile_cons, hnb]

/-- The getline loop only ever appends to its accumulator. -/
theorem textReadLoop_append : ∀ (fuel : Nat) (acc : List (List Char))
    (bs : List Char),
    textReadLoop fuel acc bs = acc ++ textReadLoop fuel [] bs := by
  intro fuel
  induction fuel with
  | zero => intro acc bs; simp [textReadLoop]
  | succ n ih =>
      intro acc bs
      rcases bs with _ | ⟨b, tl⟩
      · simp [textReadLoop]
      · simp only [textReadLoop]
        rcases hg : getlineChunk (b :: tl) with ⟨line, _ | rs⟩
        · simp
        · by_cases ht : (truncTok line).length ≠ 0
          · simp only [ht, if_true, if_pos ht]
            rw [ih (acc ++ [truncTok line]) rs, ih ([] ++ [truncTok line]) rs]
            simp
          · simp only [ht, if_false, if_neg ht]
            exact ih acc rs

/-- Dropping a prefix never lengthens a list. -/
theorem dropWhile_length_le (p : Char → Bool) : ∀ l : List Char,
    (l.dropWhile p).length ≤ l.length := by
  intro l
  induction l with
  | nil => simp
  | cons c cs ih =>
      rw [List.dropWhile_cons]
      split_ifs <;> simp only [List.length_cons] <;> omega

/-- The getline loop computes exactly the nonempty truncated segments among
all but the last LF-separated segment of the file. -/
theorem textReadLoop_eq_segments : ∀ (fuel : Nat) (bs : List Char),
    bs.length ≤ fuel →
    textReadLoop fuel [] bs
      = ((splitNl bs).dropLast.map truncTok).filter
          (fun t => decide (t ≠ [])) := by
  intro fuel
  induction fuel with
  | zero =>
      intro bs h
      have hb : bs = [] := List.eq_nil_of_length_eq_zero (Nat.le_zero.mp h)
      subst hb
      simp [textReadLoop, splitNl]
  | succ n ih =>
      intro bs h
      rcases bs with _ | ⟨b, tl⟩
      · simp [textReadLoop, splitNl]
      · simp only [textReadLoop]
        rcases hg : (b :: tl).dropWhile notNlChar with _ | ⟨d, rs⟩
        · have hchunk : getlineChunk (b :: tl)
              = ((b :: tl).takeWhile notNlChar, none) := by
            simp [getlineChunk, hg]
          rw [hchunk, splitNl_no_newline (b :: tl) hg]
          simp
        · have hchunk : getlineChunk (b :: tl)
              = ((b :: tl).takeWhile notNlChar, some rs) := by
            simp [getlineChunk, hg]
          have hlen : rs.length ≤ n := by
            have h1 : ((b :: tl).dropWhile notNlChar).length ≤ (b :: tl).length :=
              dropWhile_length_le _ _
            rw [hg] at h1
            simp only [List.length_cons] at h1 h
            omega
          rw [hchunk, splitNl_with_newline (b :: tl) d rs hg]
          rcases hsr : splitNl rs with _ | ⟨s, ss⟩
          · exact absurd hsr (splitNl_ne_nil rs)
          · rw [List.dropLast_cons₂]
            simp only [List.map_cons, List.filter_cons]
            rw [← hsr, ← ih rs hlen]
            by_cases ht : (truncTok ((b :: tl).takeWhile notNlChar)).length ≠ 0
            · have hne : truncTok ((b :: tl).takeWhile notNlChar) ≠ [] := by
                intro hnil
                exact ht (by rw [hnil]; rfl)
              rw [if_pos ht,
                textReadLoop_append n ([] ++ [truncTok ((b :: tl).takeWhile notNlChar)]) rs]
              simp [hne]
            · have hne : truncTok ((b :: tl).takeWhile notNlChar) = [] := by
                by_contra hxx
                exact ht (by simpa [List.length_eq_zero] using hxx)
              simp [ht, hne]

/-- C5 (amended): TextFile::read splits only on LF; each extracted line is
cut at its first CR, LF or NUL byte; a line is kept exactly when it is
nonempty after the cut and its getline stopped at an LF rather than at
end-of-file.  Hence every empty line is discarded — interior ones included —
the final line of a file not ending in LF is discarded, and content after an
interior CR or NUL is lost; the kept lines appear in file order as the
nonempty truncated segments among all but the last LF-separated segment. -/
theorem claim_C5_read_line_selection :
    ∀ bs : List Char,
      textLines bs
        = ((splitNl bs).dropLast.map truncTok).filter
            (fun t => decide (t ≠ [])) :=
  fun bs => textReadLoop_eq_segments bs.length bs (Nat.le_refl _)

/-- C5 (counterexample): reading the bytes "a\n\nb" yields only the line "a":
the interior empty line is discarded and the final unterminated line "b" is
discarded, although the claim says both appear; and reading "a\rb\n" yields
"a", losing the content after the interior CR rather than only stripping the
terminator. -/
theorem claim_C5_counterexample :
    textLines ("a\n\nb").data = [('a' :: [])]
  ∧ ([('a' :: [])] : List (List Char)) ≠ [('a' :: []), [], ('b' :: [])]
  ∧ textLines ("a\rb\n").data = [('a' :: [])]
  ∧ ([('a' :: [])] : List (List Char)) ≠ [('a' :: '\r' :: 'b' :: [])] := by
  refine ⟨by decide, by decide, by decide, by decide⟩

/-- The text-file buffer of TextFile.h: a file name and the vector of lines
held in memory. -/
structure TextFileM where
  fileName : String
  data : List (List Char)
  deriving DecidableEq

/-- The binary-file buffer of BinaryFile.h: a file name and the vector of
bytes held in memory. -/
structure BinaryFileM where
  fileName : String
  data : List Char
  deriving DecidableEq

/-- std::equal over three iterators as used by TextFile::equal: it walks this
object's whole range against the beginning of the other range and never
looks at the other range's length.  When this range is the longer one the
C++ dereferences past the end of the other vector (undefined there); the
model returns false in that case and no theorem below relies on it. -/
def stdEqualRange : List (List Char) → List (List Char) → Bool
  | [], _ => true
  | _ :: _, [] => false
  | a :: as, b :: bs => a == b && stdEqualRange as bs

/-- TextFile::equal: std::equal(data.begin(), data.end(), other.data.begin()). -/
def TextFileM.equal (a b : TextFileM) : Bool := stdEqualRange a.data b.data

/-- BinaryFile::equal: false when the sizes differ, otherwise an elementwise
comparison of the ranges. -/
def binEqualRange : List Char → List Char → Bool
  | [], _ => true
  | _ :: _, [] => false
  | a :: as, b :: bs => a == b && binEqualRange as bs

/-- BinaryFile::equal(other): size check first, then std::equal. -/
def BinaryFileM.equal (a b : BinaryFileM) : Bool :=
  if a.data.length ≠ b.data.length then false
  else binEqualRange a.data b.data

/-- The byte loop of BinaryFile::read: get each byte and push_back until
end-of-file. -/
def binReadLoop : List Char → List Char → List Char
  | acc, [] => acc
  | acc, c :: cs => binReadLoop (acc ++ [c]) cs

/-- BinaryFile::read: on open success push every byte of the file onto the
existing buffer and return 0; on open failure return 1 with the buffer
untouched.  The file contents are none when the stream cannot be opened. -/
def BinaryFileM.read (f : BinaryFileM) (contents : Option (List Char)) :
    Nat × BinaryFileM :=
  match contents with
  | none => (1, f)
  | some bs => (0, ⟨f.fileName, binReadLoop f.data bs⟩)

/-- TextFile::read: on open success run the getline loop pushing kept lines
onto the existing buffer and return 0; on open failure return 1 with the
buffer untouched. -/
def TextFileM.read (f : TextFileM) (contents : Option (List Char)) :
    Nat × TextFileM :=
  match contents with
  | none => (1, f)
  | some bs => (0, ⟨f.fileName, textReadLoop bs.length f.data bs⟩)

/-- Walking a range against an extension of itself succeeds elementwise. -/
theorem stdEqualRange_append (l t : List (List Char)) :
    stdEqualRange l (l ++ t) = true := by
  induction l with
  | nil => rfl
  | cons a as ih => simp [stdEqualRange, ih]

/-- C9: TextFile::equal compares only this object's line sequence against the
beginning of the other's and never compares sizes — whenever a's lines are a
possibly proper initial segment of b's, a.equal(b) is true, as on the
concrete pair (["x"], ["x","y"]) whose sequences differ; by contrast
BinaryFile::equal is false whenever the data sizes differ. -/
theorem claim_C9_equal_ignores_size :
    (∀ a b : TextFileM, (∃ t, b.data = a.data ++ t) → a.equal b = true)
  ∧ (TextFileM.mk "x.txt" (('x' :: []) :: [])).equal
      (TextFileM.mk "y.txt" (('x' :: []) :: ('y' :: []) :: [])) = true
  ∧ ((('x' :: []) :: ('y' :: []) :: []) : List (List Char))
      ≠ (('x' :: []) :: [])
  ∧ (∀ a b : BinaryFileM, a.data.length ≠ b.data.length →
        a.equal b = false) := by
  refine ⟨?_, by decide, by decide, ?_⟩
  · intro a b ht
    obtain ⟨t, ht⟩ := ht
    unfold TextFileM.equal
    rw [ht]
    exact stdEqualRange_append a.data t
  · intro a b h
    unfold BinaryFileM.equal
    rw [if_pos h]

/-- C9 witness: the initial-segment rule and the size rule at concrete
buffers. -/
theorem claim_C9_equal_ignores_size_witness :
    (∃ t, ((('x' :: []) :: ('y' :: []) :: []) : List (List Char))
        = (('x' :: []) :: []) ++ t)
  ∧ (TextFileM.mk "a" (('x' :: []) :: [])).equal
      (TextFileM.mk "b" (('x' :: []) :: ('y' :: []) :: [])) = true
  ∧ (BinaryFileM.mk "a" ('x' :: [])).equal
      (BinaryFileM.mk "b" ('x' :: 'y' :: [])) = false :=
  ⟨⟨('y' :: []) :: [], rfl⟩,
   claim_C9_equal_ignores_size.1 _ _ ⟨('y' :: []) :: [], rfl⟩,
   claim_C9_equal_ignores_size.2.2.2 _ _ (by decide)⟩

/-- The byte loop of BinaryFile::read appends the file bytes in order. -/
theorem binReadLoop_eq (bs : List Char) : ∀ acc : List Char,
    binReadLoop acc bs = acc ++ bs := by
  induction bs with
  | nil => intro acc; simp [binReadLoop]
  | cons c cs ih => intro acc; simp [binReadLoop, ih]

/-- C10: BinaryFile::read and TextFile::read append to the existing buffer:
on success the new data is the old data followed by the file's content (raw
bytes, respectively the kept lines) and the call returns 0, so two
successive reads hold the content twice; on open failure the call returns 1
and the buffer is unchanged. -/
theorem claim_C10_read_appends :
    (∀ (f : BinaryFileM) (bs : List Char),
        f.read (some bs) = (0, ⟨f.fileName, f.data ++ bs⟩))
  ∧ (∀ f : BinaryFileM, f.read none = (1, f))
  ∧ (∀ (f : TextFileM) (bs : List Char),
        f.read (some bs) = (0, ⟨f.fileName, f.data ++ textLines bs⟩))
  ∧ (∀ f : TextFileM, f.read none = (1, f))
  ∧ (∀ (f : BinaryFileM) (bs : List Char),
        ((f.read (some bs)).2.read (some bs)).2.data
          = f.data ++ bs ++ bs) := by
  refine ⟨?_, fun f => rfl, ?_, fun f => rfl, ?_⟩
  · intro f bs
    simp [BinaryFileM.read, binReadLoop_eq]
  · intro f bs
    show (0, (⟨f.fileName, textReadLoop bs.length f.data bs⟩ : TextFileM))
        = (0, ⟨f.fileName, f.data ++ textLines bs⟩)
    rw [textReadLoop_append bs.length f.data bs]
    rfl
  · intro f bs
    simp [BinaryFileM.read, binReadLoop_eq, List.append_assoc]
